import Mathlib

/-!
Verification of the operation-counting instrumentation harness (`src/src/lib.rs`).

The embedding follows the Rust source:

* `InstrumentedBase` models the counter struct holding `counts : [usize; 6]`,
  with the slot constants `NEW .. CMP` and the methods `set`/`get`/`incr`
  (`incr` is the `self.base.borrow_mut().counts[k] += 1` pattern).
* An `Rc<RefCell<InstrumentedBase>>` is modelled by an index into a `Store`
  (a list of counter cells); `Rc::clone` copies the index, so sharing and
  pointer identity are explicit.  Each wrapper operation takes the store and
  returns the updated store.
* `Instrumented T` holds the wrapped `value` and the `base` index.  The six
  counted operations (`new`, `clone`, `drop`, `eq`, `partialCmp`, `cmp`)
  increment the corresponding slot of the cell at their `base` index and
  delegate to the inner type's operation, passed in explicitly as the trait
  methods (`cloneT`, `eqT`, `pcT`, `cT`).
* `count_operations` allocates one fresh cell (index 0), wraps the batch in
  order, runs the caller operation, and snapshots cell 0 *before* the wrapped
  vector would be dropped, exactly as the Rust function reads
  `*base2.borrow()` before `vec` goes out of scope.
* Caller operations realizable in Rust can only act through the counted
  wrapper operations; `OpStep`/`SessionStep` give that trace semantics, used
  for the conservation, monotonicity and empty-batch claims.
-/

abbrev InstrumentedBase.COLUMNS : Nat := 6

/-- The counter: `counts: [usize; 6]` of `InstrumentedBase`. -/
structure InstrumentedBase where
  counts : Fin InstrumentedBase.COLUMNS → Nat

namespace InstrumentedBase

def NEW : Fin COLUMNS := 0
def CLONE : Fin COLUMNS := 1
def DROP : Fin COLUMNS := 2
def EQ : Fin COLUMNS := 3
def PARTIAL_CMP : Fin COLUMNS := 4
def CMP : Fin COLUMNS := 5

/-- `counts_names()`. -/
def counts_names : List String := ["new", "clone", "drop", "eq", "partial_cmp", "cmp"]

/-- `Default::default()`: every slot starts at zero. -/
def default : InstrumentedBase := ⟨fun _ => 0⟩

/-- `set`: overwrites all slots at once. -/
def set (_b : InstrumentedBase) (c : Fin COLUMNS → Nat) : InstrumentedBase := ⟨c⟩

/-- `get`: returns the current tallies. -/
def get (b : InstrumentedBase) : Fin COLUMNS → Nat := b.counts

/-- The `counts[i] += 1` update every counted operation performs. -/
def incr (b : InstrumentedBase) (i : Fin COLUMNS) : InstrumentedBase :=
  ⟨Function.update b.counts i (b.counts i + 1)⟩

end InstrumentedBase

/-- The heap of `Rc<RefCell<InstrumentedBase>>` cells; an `Rc` handle is an
index into this list, so `Rc::clone` (copying the index) shares the cell. -/
abbrev Store := List InstrumentedBase

/-- `base.borrow_mut()` followed by a mutation `g`: read-modify-write of the
cell at index `i`. -/
def Store.upd (σ : Store) (i : Nat) (g : InstrumentedBase → InstrumentedBase) : Store :=
  σ.set i (g (σ.getD i InstrumentedBase.default))

/-- The wrapper: one owned inner value and one shared handle (`base` index)
to the session's counter cell. -/
structure Instrumented (T : Type) where
  value : T
  base : Nat

namespace Instrumented

variable {T : Type}

/-- `Instrumented::new(value, base)`: increments the NEW slot of the shared
cell and stores the value together with the handle. -/
def new (value : T) (base : Nat) (σ : Store) : Instrumented T × Store :=
  (⟨value, base⟩, Store.upd σ base (·.incr InstrumentedBase.NEW))

/-- `Clone for Instrumented<T>`: increments the CLONE slot, duplicates the
inner value with the inner type's `clone` (`cloneT`), and copies the `Rc`
handle (`self.base.clone()` — the same index, no new cell). -/
def clone (cloneT : T → T) (x : Instrumented T) (σ : Store) : Instrumented T × Store :=
  (⟨cloneT x.value, x.base⟩, Store.upd σ x.base (·.incr InstrumentedBase.CLONE))

/-- `Drop for Instrumented<T>`: increments the DROP slot of the shared cell. -/
def drop (x : Instrumented T) (σ : Store) : Store :=
  Store.upd σ x.base (·.incr InstrumentedBase.DROP)

/-- `PartialEq for Instrumented<T>`: increments the EQ slot, then delegates
to the inner values' equality (`eqT`). -/
def eq (eqT : T → T → Bool) (x y : Instrumented T) (σ : Store) : Bool × Store :=
  (eqT x.value y.value, Store.upd σ x.base (·.incr InstrumentedBase.EQ))

/-- `PartialOrd for Instrumented<T>`: increments the PARTIAL_CMP slot, then
delegates to the inner values' partial ordering (`pcT`). -/
def partialCmp (pcT : T → T → Option Ordering) (x y : Instrumented T) (σ : Store) :
    Option Ordering × Store :=
  (pcT x.value y.value, Store.upd σ x.base (·.incr InstrumentedBase.PARTIAL_CMP))

/-- `Ord for Instrumented<T>`: increments the CMP slot, then delegates to the
inner values' total ordering (`cT`). -/
def cmp (cT : T → T → Ordering) (x y : Instrumented T) (σ : Store) :
    Ordering × Store :=
  (cT x.value y.value, Store.upd σ x.base (·.incr InstrumentedBase.CMP))

/-- `Debug for Instrumented<T>`: `self.value.fmt(f)` — renders only the inner
value through the inner formatter `fmtT`; the counter store is untouched. -/
def fmt (fmtT : T → String) (x : Instrumented T) (σ : Store) : String × Store :=
  (fmtT x.value, σ)

end Instrumented

/-- The wrapping pass of `count_operations`:
`vec.into_iter().map(|x| Instrumented::new(x, base.clone())).collect()`. -/
def wrapBatch {T : Type} (vec : List T) (base : Nat) (σ : Store) :
    List (Instrumented T) × Store :=
  match vec with
  | [] => ([], σ)
  | x :: xs =>
      let p := Instrumented.new x base σ
      let q := wrapBatch xs base p.2
      (p.1 :: q.1, q.2)

/-- `count_operations(vec, f)`: allocates one fresh cell (index 0, all slots
zero), wraps the batch in order, runs the caller operation `f` on the wrapped
vector, and returns the snapshot `*base2.borrow()` — read after `f` returns
and before the wrapped vector is dropped.  In the model the operation also
returns the surviving wrapped vector, which the snapshot ignores. -/
def count_operations {T : Type} (vec : List T)
    (f : List (Instrumented T) → Store → List (Instrumented T) × Store) :
    InstrumentedBase :=
  let p := wrapBatch vec 0 [InstrumentedBase.default]
  let q := f p.1 p.2
  q.2.getD 0 InstrumentedBase.default

/-- Dropping the session's surviving wrapped vector front to back, as `Vec`'s
destructor does at the end of `count_operations`. -/
def dropBatch {T : Type} (ws : List (Instrumented T)) (σ : Store) : Store :=
  match ws with
  | [] => σ
  | w :: ws => dropBatch ws (Instrumented.drop w σ)

/-- The counter cell as it stands *after* the final teardown of the surviving
wrapped vector — the state `count_operations` deliberately does not report. -/
def count_operations_after_teardown {T : Type} (vec : List T)
    (f : List (Instrumented T) → Store → List (Instrumented T) × Store) :
    InstrumentedBase :=
  let p := wrapBatch vec 0 [InstrumentedBase.default]
  let q := f p.1 p.2
  (dropBatch q.1 q.2).getD 0 InstrumentedBase.default

/-- The wrapper's equality-test returns exactly the inner values' equality
result, the partial-order-test returns exactly the inner partial ordering
(`none`, incomparable, exactly when the inner test is `none`), and the
total-order-test returns exactly the inner total ordering — for every store,
so counting never alters the semantic outcome.  (C1) -/
theorem c1_comparisons_transparent {T : Type} (eqT : T → T → Bool)
    (pcT : T → T → Option Ordering) (cT : T → T → Ordering)
    (x y : Instrumented T) (σ : Store) :
    (Instrumented.eq eqT x y σ).1 = eqT x.value y.value ∧
    (Instrumented.partialCmp pcT x y σ).1 = pcT x.value y.value ∧
    ((Instrumented.partialCmp pcT x y σ).1 = none ↔ pcT x.value y.value = none) ∧
    (Instrumented.cmp cT x y σ).1 = cT x.value y.value :=
  ⟨rfl, rfl, Iff.rfl, rfl⟩

/-- Debug-formatting an `Instrumented` value renders only the inner value
(through the inner type's formatter) and returns the store unchanged, so no
counter slot moves.  (C9) -/
theorem c9_debug_renders_inner_only {T : Type} (fmtT : T → String)
    (x : Instrumented T) (σ : Store) :
    (Instrumented.fmt fmtT x σ).1 = fmtT x.value ∧
    (Instrumented.fmt fmtT x σ).2 = σ ∧
    ∀ i, ((Instrumented.fmt fmtT x σ).2.getD 0 InstrumentedBase.default).counts i =
      (σ.getD 0 InstrumentedBase.default).counts i :=
  ⟨rfl, rfl, fun _ => rfl⟩

/-- `counts[i] += 1` raises slot `i` by one. -/
theorem InstrumentedBase.counts_incr_self (b : InstrumentedBase)
    (i : Fin InstrumentedBase.COLUMNS) : (b.incr i).counts i = b.counts i + 1 :=
  Function.update_same i _ b.counts

/-- `counts[i] += 1` leaves every other slot unchanged. -/
theorem InstrumentedBase.counts_incr_of_ne (b : InstrumentedBase)
    {i j : Fin InstrumentedBase.COLUMNS} (h : j ≠ i) :
    (b.incr i).counts j = b.counts j :=
  Function.update_noteq h _ b.counts

/-- Wrapping a batch over the single session cell adds the batch length to
the NEW slot and nothing to any other slot. -/
theorem wrapBatch_counts {T : Type} (vec : List T) (b : InstrumentedBase)
    (i : Fin InstrumentedBase.COLUMNS) :
    ((wrapBatch vec 0 [b]).2.getD 0 InstrumentedBase.default).counts i =
      b.counts i + (if i = InstrumentedBase.NEW then vec.length else 0) := by
  induction vec generalizing b with
  | nil => simp [wrapBatch]
  | cons x xs ih =>
      have hstep : (wrapBatch (x :: xs) 0 [b]).2 =
          (wrapBatch xs 0 [b.incr InstrumentedBase.NEW]).2 := rfl
      rw [hstep, ih]
      by_cases hi : i = InstrumentedBase.NEW
      · subst hi
        rw [InstrumentedBase.counts_incr_self]
        simp
        omega
      · rw [InstrumentedBase.counts_incr_of_ne _ hi]
        simp [hi]

/-- Running `count_operations` with the identity operation on any duplicate-free
batch yields construct = batch length and zero in the other five slots.  (C2) -/
theorem c2_identity_op_counts_constructs {T : Type} (vec : List T) (h : vec.Nodup) :
    (count_operations vec (fun ws σ => (ws, σ))).counts InstrumentedBase.NEW = vec.length ∧
    ∀ i, i ≠ InstrumentedBase.NEW →
      (count_operations vec (fun ws σ => (ws, σ))).counts i = 0 := by
  refine ⟨?_, fun i hi => ?_⟩
  · show ((wrapBatch vec 0 [InstrumentedBase.default]).2.getD 0
        InstrumentedBase.default).counts InstrumentedBase.NEW = vec.length
    rw [wrapBatch_counts]
    simp [InstrumentedBase.default]
  · show ((wrapBatch vec 0 [InstrumentedBase.default]).2.getD 0
        InstrumentedBase.default).counts i = 0
    rw [wrapBatch_counts]
    simp [InstrumentedBase.default, hi]

/-- Witness for C2 at the concrete distinct batch `[0, 1, 2]`. -/
theorem c2_identity_op_counts_constructs_witness :
    ([0, 1, 2] : List Nat).Nodup ∧
    (count_operations ([0, 1, 2] : List Nat) (fun ws σ => (ws, σ))).counts
      InstrumentedBase.NEW = 3 ∧
    (count_operations ([0, 1, 2] : List Nat) (fun ws σ => (ws, σ))).counts
      InstrumentedBase.CLONE = 0 :=
  ⟨by decide, (c2_identity_op_counts_constructs [0, 1, 2] (by decide)).1,
    (c2_identity_op_counts_constructs [0, 1, 2] (by decide)).2
      InstrumentedBase.CLONE (by decide)⟩

/-- Duplicating a wrapper increments the CLONE slot by exactly one (and not
the NEW slot), produces a wrapper holding a clone of the inner value and the
*same* `base` handle as the source (no fresh cell is allocated: the store
length is unchanged), so a later counted operation on the duplicate hits the
very same cell as one on the source.  (C4) -/
theorem c4_clone_shares_counter {T : Type} (cloneT : T → T) (eqT : T → T → Bool)
    (x z : Instrumented T) (b : InstrumentedBase) (σ : Store) (hx : x.base = 0) :
    (Instrumented.clone cloneT x σ).1.base = x.base ∧
    (Instrumented.clone cloneT x σ).1.value = cloneT x.value ∧
    ((Instrumented.clone cloneT x σ).2).length = σ.length ∧
    (Instrumented.eq eqT (Instrumented.clone cloneT x σ).1 z σ).2 =
      Store.upd σ x.base (·.incr InstrumentedBase.EQ) ∧
    (Instrumented.eq eqT x z σ).2 = Store.upd σ x.base (·.incr InstrumentedBase.EQ) ∧
    (Instrumented.clone cloneT x [b]).2 = [b.incr InstrumentedBase.CLONE] ∧
    (b.incr InstrumentedBase.CLONE).counts InstrumentedBase.CLONE =
      b.counts InstrumentedBase.CLONE + 1 ∧
    ∀ i, i ≠ InstrumentedBase.CLONE →
      (b.incr InstrumentedBase.CLONE).counts i = b.counts i := by
  refine ⟨rfl, rfl, ?_, rfl, rfl, ?_, b.counts_incr_self _, fun i hi => b.counts_incr_of_ne hi⟩
  · simp [Instrumented.clone, Store.upd]
  · simp [Instrumented.clone, Store.upd, hx]

/-- Witness for C4: cloning the wrapper `⟨5, 0⟩` over a zeroed cell. -/
theorem c4_clone_shares_counter_witness :
    (⟨5, 0⟩ : Instrumented Nat).base = 0 ∧
    (Instrumented.clone id (⟨5, 0⟩ : Instrumented Nat) [InstrumentedBase.default]).2 =
      [InstrumentedBase.default.incr InstrumentedBase.CLONE] ∧
    (Instrumented.clone id (⟨5, 0⟩ : Instrumented Nat)
      [InstrumentedBase.default]).1.base = (⟨5, 0⟩ : Instrumented Nat).base ∧
    (InstrumentedBase.default.incr InstrumentedBase.CLONE).counts InstrumentedBase.NEW =
      InstrumentedBase.default.counts InstrumentedBase.NEW :=
  ⟨rfl,
    (c4_clone_shares_counter id (fun a b => a == b) ⟨5, 0⟩ ⟨7, 0⟩
      InstrumentedBase.default [InstrumentedBase.default] rfl).2.2.2.2.2.1,
    (c4_clone_shares_counter id (fun a b => a == b) ⟨5, 0⟩ ⟨7, 0⟩
      InstrumentedBase.default [InstrumentedBase.default] rfl).1,
    (c4_clone_shares_counter id (fun a b => a == b) ⟨5, 0⟩ ⟨7, 0⟩
      InstrumentedBase.default [InstrumentedBase.default] rfl).2.2.2.2.2.2.2
      InstrumentedBase.NEW (by decide)⟩

/-- Each of the six counted operations performs exactly one `+= 1` on its own
slot of the shared cell and leaves the other five slots unchanged.  (C7) -/
theorem c7_each_op_increments_own_slot {T : Type} (v : T) (cloneT : T → T)
    (eqT : T → T → Bool) (pcT : T → T → Option Ordering) (cT : T → T → Ordering)
    (x y : Instrumented T) (b : InstrumentedBase) (hx : x.base = 0) :
    (Instrumented.new v 0 [b]).2 = [b.incr InstrumentedBase.NEW] ∧
    (Instrumented.clone cloneT x [b]).2 = [b.incr InstrumentedBase.CLONE] ∧
    Instrumented.drop x [b] = [b.incr InstrumentedBase.DROP] ∧
    (Instrumented.eq eqT x y [b]).2 = [b.incr InstrumentedBase.EQ] ∧
    (Instrumented.partialCmp pcT x y [b]).2 = [b.incr InstrumentedBase.PARTIAL_CMP] ∧
    (Instrumented.cmp cT x y [b]).2 = [b.incr InstrumentedBase.CMP] ∧
    ∀ i j : Fin InstrumentedBase.COLUMNS,
      (b.incr i).counts i = b.counts i + 1 ∧
      (j ≠ i → (b.incr i).counts j = b.counts j) := by
  refine ⟨rfl, ?_, ?_, ?_, ?_, ?_, fun i j => ⟨b.counts_incr_self i, fun hj => b.counts_incr_of_ne hj⟩⟩
  · simp [Instrumented.clone, Store.upd, hx]
  · simp [Instrumented.drop, Store.upd, hx]
  · simp [Instrumented.eq, Store.upd, hx]
  · simp [Instrumented.partialCmp, Store.upd, hx]
  · simp [Instrumented.cmp, Store.upd, hx]

/-- Witness for C7: the DROP operation on the wrapper `⟨1, 0⟩` over a zeroed
cell raises the DROP slot to one and leaves the EQ slot at zero. -/
theorem c7_each_op_increments_own_slot_witness :
    (⟨1, 0⟩ : Instrumented Nat).base = 0 ∧
    Instrumented.drop (⟨1, 0⟩ : Instrumented Nat) [InstrumentedBase.default] =
      [InstrumentedBase.default.incr InstrumentedBase.DROP] ∧
    (InstrumentedBase.default.incr InstrumentedBase.DROP).counts InstrumentedBase.DROP =
      InstrumentedBase.default.counts InstrumentedBase.DROP + 1 ∧
    (InstrumentedBase.default.incr InstrumentedBase.DROP).counts InstrumentedBase.EQ =
      InstrumentedBase.default.counts InstrumentedBase.EQ :=
  ⟨rfl,
    (c7_each_op_increments_own_slot 1 id (fun a b => a == b)
      (fun a b => some (compare a b)) compare ⟨1, 0⟩ ⟨2, 0⟩
      InstrumentedBase.default rfl).2.2.1,
    ((c7_each_op_increments_own_slot 1 id (fun a b => a == b)
      (fun a b => some (compare a b)) compare ⟨1, 0⟩ ⟨2, 0⟩
      InstrumentedBase.default rfl).2.2.2.2.2.2 InstrumentedBase.DROP
      InstrumentedBase.EQ).1,
    ((c7_each_op_increments_own_slot 1 id (fun a b => a == b)
      (fun a b => some (compare a b)) compare ⟨1, 0⟩ ⟨2, 0⟩
      InstrumentedBase.default rfl).2.2.2.2.2.2 InstrumentedBase.DROP
      InstrumentedBase.EQ).2 (by decide)⟩

/-- Rust's `PartialOrd::lt` default method on wrapped values:
`matches!(self.partial_cmp(other), Some(Less))` — each call performs exactly
one counted `partial_cmp`. -/
def instLt {T : Type} (pcT : T → T → Option Ordering) (x y : Instrumented T)
    (σ : Store) : Bool × Store :=
  let p := Instrumented.partialCmp pcT x y σ
  (p.1 == some Ordering.lt, p.2)

/-- One insertion step of Rust's standard `slice::sort` on short slices
(insertion sort): the new element is shifted left while `v[j] < v[j-1]`, one
`lt` probe — hence one counted `partial_cmp` — per shift test, stopping at the
first non-less left neighbour or at the front of the slice.  `rs` is the
already sorted prefix with its rightmost element first. -/
def insertShift {T : Type} (pcT : T → T → Option Ordering) (x : Instrumented T)
    (rs : List (Instrumented T)) (σ : Store) : List (Instrumented T) × Store :=
  match rs with
  | [] => ([x], σ)
  | y :: ys =>
      let p := instLt pcT x y σ
      if p.1 then
        let q := insertShift pcT x ys p.2
        (y :: q.1, q.2)
      else (x :: y :: ys, p.2)

/-- `<[Instrumented<T>]>::sort()` as invoked by the tests, modelling the
standard library's insertion sort for short slices: fold the slice into a
sorted prefix (kept in reversed order) and reverse at the end. -/
def sliceSort {T : Type} (pcT : T → T → Option Ordering)
    (ws : List (Instrumented T)) (σ : Store) : List (Instrumented T) × Store :=
  let r := ws.foldl (fun p x => insertShift pcT x p.1 p.2)
    (([] : List (Instrumented T)), σ)
  (r.1.reverse, r.2)

/-- `partial_cmp` of the integer element type used by the tests: `Some` of
the total order. -/
def natPartialCmp (a b : Nat) : Option Ordering := some (compare a b)

/-- The counting session on the batch `[0, 1, 2, 3]` with an ascending sort
returns `{new: 4, clone: 0, drop: 0, eq: 0, partial_cmp: 3, cmp: 0}`.  (C5) -/
theorem c5_sorted_batch_counts :
    (count_operations [0, 1, 2, 3] (sliceSort natPartialCmp)).counts
      InstrumentedBase.NEW = 4 ∧
    (count_operations [0, 1, 2, 3] (sliceSort natPartialCmp)).counts
      InstrumentedBase.CLONE = 0 ∧
    (count_operations [0, 1, 2, 3] (sliceSort natPartialCmp)).counts
      InstrumentedBase.DROP = 0 ∧
    (count_operations [0, 1, 2, 3] (sliceSort natPartialCmp)).counts
      InstrumentedBase.EQ = 0 ∧
    (count_operations [0, 1, 2, 3] (sliceSort natPartialCmp)).counts
      InstrumentedBase.PARTIAL_CMP = 3 ∧
    (count_operations [0, 1, 2, 3] (sliceSort natPartialCmp)).counts
      InstrumentedBase.CMP = 0 := by
  decide

/-- Model validation against the repository's second test `it_sort2`: the
reverse-sorted batch `[3, 2, 1, 0]` yields 6 `partial_cmp` probes. -/
theorem sliceSort_matches_it_sort2 :
    (count_operations [3, 2, 1, 0] (sliceSort natPartialCmp)).counts
      InstrumentedBase.NEW = 4 ∧
    (count_operations [3, 2, 1, 0] (sliceSort natPartialCmp)).counts
      InstrumentedBase.PARTIAL_CMP = 6 ∧
    (count_operations [3, 2, 1, 0] (sliceSort natPartialCmp)).counts
      InstrumentedBase.CMP = 0 := by
  decide

/-- The sort model is also value-correct on the test input: the surviving
wrapped values of the reverse-sorted batch come back in ascending order. -/
theorem sliceSort_sorts_it_sort2 :
    ((sliceSort natPartialCmp (wrapBatch [3, 2, 1, 0] 0 [InstrumentedBase.default]).1
      (wrapBatch [3, 2, 1, 0] 0 [InstrumentedBase.default]).2).1.map
        Instrumented.value) = [0, 1, 2, 3] := by
  decide

/-- Slot `i` never shrinks under `counts[slot] += 1`. -/
theorem InstrumentedBase.counts_le_incr (b : InstrumentedBase)
    (slot i : Fin InstrumentedBase.COLUMNS) :
    b.counts i ≤ (b.incr slot).counts i := by
  by_cases hi : i = slot
  · subst hi
    rw [InstrumentedBase.counts_incr_self]
    omega
  · rw [InstrumentedBase.counts_incr_of_ne _ hi]

/-- A mid-session state: the store of counter cells together with the live
wrapper instances (the wrapped vector plus any temporaries the operation
made). -/
structure SessionState (T : Type) where
  store : Store
  live : List (Instrumented T)

/-- The session driver's own handle: it reads cell 0 (`*base2.borrow()`). -/
def sessionCounter {T : Type} (s : SessionState T) : InstrumentedBase :=
  s.store.getD 0 InstrumentedBase.default

/-- The state at the start of `count_operations`: one fresh zeroed cell and
no wrapper instances yet. -/
def initState (T : Type) : SessionState T :=
  ⟨[InstrumentedBase.default], []⟩

/-- One action a caller-supplied operation can take that touches the counter:
in Rust the operation only receives `&mut [Instrumented<T>]`, so it reaches
the counter exclusively through the counted wrapper operations — duplicating
a live wrapper, dropping one, or comparing two live wrappers. -/
inductive OpStep {T : Type} : SessionState T → SessionState T → Prop
  | cloneStep (cloneT : T → T) (w : Instrumented T) (s : SessionState T)
      (h : w ∈ s.live) :
      OpStep s ⟨(Instrumented.clone cloneT w s.store).2,
        (Instrumented.clone cloneT w s.store).1 :: s.live⟩
  | dropStep (w : Instrumented T) (pre post : List (Instrumented T))
      (s : SessionState T) (h : s.live = pre ++ w :: post) :
      OpStep s ⟨Instrumented.drop w s.store, pre ++ post⟩
  | eqStep (eqT : T → T → Bool) (w₁ w₂ : Instrumented T) (s : SessionState T)
      (h₁ : w₁ ∈ s.live) (h₂ : w₂ ∈ s.live) :
      OpStep s ⟨(Instrumented.eq eqT w₁ w₂ s.store).2, s.live⟩
  | partialCmpStep (pcT : T → T → Option Ordering) (w₁ w₂ : Instrumented T)
      (s : SessionState T) (h₁ : w₁ ∈ s.live) (h₂ : w₂ ∈ s.live) :
      OpStep s ⟨(Instrumented.partialCmp pcT w₁ w₂ s.store).2, s.live⟩
  | cmpStep (cT : T → T → Ordering) (w₁ w₂ : Instrumented T)
      (s : SessionState T) (h₁ : w₁ ∈ s.live) (h₂ : w₂ ∈ s.live) :
      OpStep s ⟨(Instrumented.cmp cT w₁ w₂ s.store).2, s.live⟩

/-- One action of the whole session: the driver's wrapping phase additionally
calls `Instrumented::new` against the session cell (index 0). -/
inductive SessionStep {T : Type} : SessionState T → SessionState T → Prop
  | newStep (v : T) (s : SessionState T) :
      SessionStep s ⟨(Instrumented.new v 0 s.store).2,
        (Instrumented.new v 0 s.store).1 :: s.live⟩
  | opStep {s s' : SessionState T} (h : OpStep s s') : SessionStep s s'

/-- The conservation invariant carried through a session: every live wrapper
holds the session cell, the store is that one cell, and its DROP slot plus
the number of live wrappers equals its NEW slot plus its CLONE slot. -/
def SessionInv {T : Type} (s : SessionState T) : Prop :=
  (∀ w ∈ s.live, w.base = 0) ∧
  ∃ b : InstrumentedBase, s.store = [b] ∧
    b.counts InstrumentedBase.DROP + s.live.length =
      b.counts InstrumentedBase.NEW + b.counts InstrumentedBase.CLONE

theorem sessionInv_init (T : Type) : SessionInv (initState T) := by
  refine ⟨by simp [initState], InstrumentedBase.default, rfl, ?_⟩
  simp [initState, InstrumentedBase.default]

theorem sessionInv_step {T : Type} {s s' : SessionState T}
    (hs : SessionStep s s') (h : SessionInv s) : SessionInv s' := by
  obtain ⟨hbase, b, hstore, hcnt⟩ := h
  cases hs with
  | newStep v =>
      refine ⟨?_, b.incr InstrumentedBase.NEW, ?_, ?_⟩
      · intro w hw
        rcases List.mem_cons.mp hw with hw | hw
        · rw [hw]
          rfl
        · exact hbase w hw
      · simp [Instrumented.new, Store.upd, hstore]
      · rw [InstrumentedBase.counts_incr_of_ne _ (by decide),
          InstrumentedBase.counts_incr_self,
          InstrumentedBase.counts_incr_of_ne _ (by decide)]
        simp only [List.length_cons]
        omega
  | opStep hop =>
      cases hop with
      | cloneStep cloneT w s hw =>
          have hw0 : w.base = 0 := hbase w hw
          refine ⟨?_, b.incr InstrumentedBase.CLONE, ?_, ?_⟩
          · intro u hu
            rcases List.mem_cons.mp hu with hu | hu
            · rw [hu]
              exact hw0
            · exact hbase u hu
          · simp [Instrumented.clone, Store.upd, hstore, hw0]
          · rw [InstrumentedBase.counts_incr_of_ne _ (by decide),
              InstrumentedBase.counts_incr_of_ne _ (by decide),
              InstrumentedBase.counts_incr_self]
            simp only [List.length_cons]
            omega
      | dropStep w pre post s hsplit =>
          have hw0 : w.base = 0 := hbase w (by simp [hsplit])
          have hlen : s.live.length = pre.length + post.length + 1 := by
            simp [hsplit]
            omega
          refine ⟨?_, b.incr InstrumentedBase.DROP, ?_, ?_⟩
          · intro u hu
            exact hbase u (by simp [hsplit] at hu ⊢; tauto)
          · simp [Instrumented.drop, Store.upd, hstore, hw0]
          · rw [InstrumentedBase.counts_incr_self,
              InstrumentedBase.counts_incr_of_ne _ (by decide),
              InstrumentedBase.counts_incr_of_ne _ (by decide)]
            simp only [List.length_append]
            omega
      | eqStep eqT w₁ w₂ s h₁ h₂ =>
          have hw0 : w₁.base = 0 := hbase w₁ h₁
          refine ⟨hbase, b.incr InstrumentedBase.EQ, ?_, ?_⟩
          · simp [Instrumented.eq, Store.upd, hstore, hw0]
          · rw [InstrumentedBase.counts_incr_of_ne _ (by decide),
              InstrumentedBase.counts_incr_of_ne _ (by decide),
              InstrumentedBase.counts_incr_of_ne _ (by decide)]
            exact hcnt
      | partialCmpStep pcT w₁ w₂ s h₁ h₂ =>
          have hw0 : w₁.base = 0 := hbase w₁ h₁
          refine ⟨hbase, b.incr InstrumentedBase.PARTIAL_CMP, ?_, ?_⟩
          · simp [Instrumented.partialCmp, Store.upd, hstore, hw0]
          · rw [InstrumentedBase.counts_incr_of_ne _ (by decide),
              InstrumentedBase.counts_incr_of_ne _ (by decide),
              InstrumentedBase.counts_incr_of_ne _ (by decide)]
            exact hcnt
      | cmpStep cT w₁ w₂ s h₁ h₂ =>
          have hw0 : w₁.base = 0 := hbase w₁ h₁
          refine ⟨hbase, b.incr InstrumentedBase.CMP, ?_, ?_⟩
          · simp [Instrumented.cmp, Store.upd, hstore, hw0]
          · rw [InstrumentedBase.counts_incr_of_ne _ (by decide),
              InstrumentedBase.counts_incr_of_ne _ (by decide),
              InstrumentedBase.counts_incr_of_ne _ (by decide)]
            exact hcnt

theorem sessionInv_reachable {T : Type} {s : SessionState T}
    (h : Relation.ReflTransGen SessionStep (initState T) s) : SessionInv s := by
  induction h with
  | refl => exact sessionInv_init T
  | tail _ hstep ih => exact sessionInv_step hstep ih

/-- Conservation law: in any session trace (wrapping plus caller operation)
after which no wrapper instance is left alive, the DROP slot of the session
counter equals its NEW slot plus its CLONE slot — constructs plus duplicates
equal eventual destroys.  (C3) -/
theorem c3_constructs_plus_clones_eq_drops {T : Type} (s : SessionState T)
    (h : Relation.ReflTransGen SessionStep (initState T) s) (hlive : s.live = []) :
    (sessionCounter s).counts InstrumentedBase.DROP =
      (sessionCounter s).counts InstrumentedBase.NEW +
      (sessionCounter s).counts InstrumentedBase.CLONE := by
  obtain ⟨-, b, hstore, hcnt⟩ := sessionInv_reachable h
  rw [hlive, List.length_nil] at hcnt
  simp only [sessionCounter, hstore, List.getD_cons_zero]
  omega

/-- Witness for C3: wrap one value, then drop it — DROP = NEW + CLONE. -/
theorem c3_constructs_plus_clones_eq_drops_witness :
    (sessionCounter (⟨[(InstrumentedBase.default.incr InstrumentedBase.NEW).incr
        InstrumentedBase.DROP], []⟩ : SessionState Nat)).counts InstrumentedBase.DROP =
      (sessionCounter (⟨[(InstrumentedBase.default.incr InstrumentedBase.NEW).incr
        InstrumentedBase.DROP], []⟩ : SessionState Nat)).counts InstrumentedBase.NEW +
      (sessionCounter (⟨[(InstrumentedBase.default.incr InstrumentedBase.NEW).incr
        InstrumentedBase.DROP], []⟩ : SessionState Nat)).counts InstrumentedBase.CLONE := by
  have h1 : SessionStep (initState Nat)
      (⟨[InstrumentedBase.default.incr InstrumentedBase.NEW],
        [⟨7, 0⟩]⟩ : SessionState Nat) :=
    SessionStep.newStep 7 (initState Nat)
  have h2 : OpStep
      (⟨[InstrumentedBase.default.incr InstrumentedBase.NEW],
        [⟨7, 0⟩]⟩ : SessionState Nat)
      (⟨[(InstrumentedBase.default.incr InstrumentedBase.NEW).incr
        InstrumentedBase.DROP], []⟩ : SessionState Nat) :=
    OpStep.dropStep ⟨7, 0⟩ [] [] _ rfl
  exact c3_constructs_plus_clones_eq_drops _
    ((Relation.ReflTransGen.refl.tail h1).tail (SessionStep.opStep h2)) rfl

/-- Slot values of the session counter are monotone along one session step. -/
theorem sessionCounter_le_of_step {T : Type} {s s' : SessionState T}
    (h : SessionStep s s') (i : Fin InstrumentedBase.COLUMNS) :
    (sessionCounter s).counts i ≤ (sessionCounter s').counts i := by
  have key : ∀ (σ : Store) (k : Nat) (slot : Fin InstrumentedBase.COLUMNS),
      (σ.getD 0 InstrumentedBase.default).counts i ≤
        ((Store.upd σ k (·.incr slot)).getD 0 InstrumentedBase.default).counts i := by
    intro σ k slot
    cases σ with
    | nil => simp [Store.upd]
    | cons b bs =>
        cases k with
        | zero => exact b.counts_le_incr slot i
        | succ k => exact le_refl _
  cases h with
  | newStep v => exact key _ 0 InstrumentedBase.NEW
  | opStep hop =>
      cases hop with
      | cloneStep cloneT w s hw => exact key _ w.base InstrumentedBase.CLONE
      | dropStep w pre post s hsplit => exact key _ w.base InstrumentedBase.DROP
      | eqStep eqT w₁ w₂ s h₁ h₂ => exact key _ w₁.base InstrumentedBase.EQ
      | partialCmpStep pcT w₁ w₂ s h₁ h₂ =>
          exact key _ w₁.base InstrumentedBase.PARTIAL_CMP
      | cmpStep cT w₁ w₂ s h₁ h₂ => exact key _ w₁.base InstrumentedBase.CMP

/-- Within one session the counter starts with every slot at zero, and along
any sequence of counted wrapper operations no slot of the session counter
ever decreases.  (C8) -/
theorem c8_counter_starts_zero_and_monotone (T : Type) :
    (∀ i, (sessionCounter (initState T)).counts i = 0) ∧
    ∀ (s s' : SessionState T), Relation.ReflTransGen SessionStep s s' →
      ∀ i, (sessionCounter s).counts i ≤ (sessionCounter s').counts i := by
  refine ⟨fun i => rfl, fun s s' h i => ?_⟩
  induction h with
  | refl => exact le_refl _
  | tail _ hstep ih => exact le_trans ih (sessionCounter_le_of_step hstep i)

/-- Witness for C8: along the one-step trace that wraps a single value, the
NEW slot does not decrease; and the initial CMP slot is zero. -/
theorem c8_counter_starts_zero_and_monotone_witness :
    (sessionCounter (initState Nat)).counts InstrumentedBase.NEW ≤
      (sessionCounter (⟨[InstrumentedBase.default.incr InstrumentedBase.NEW],
        [⟨7, 0⟩]⟩ : SessionState Nat)).counts InstrumentedBase.NEW ∧
    (sessionCounter (initState Nat)).counts InstrumentedBase.CMP = 0 :=
  ⟨(c8_counter_starts_zero_and_monotone Nat).2 _ _
      (Relation.ReflTransGen.refl.tail (SessionStep.newStep 7 (initState Nat)))
      InstrumentedBase.NEW,
    (c8_counter_starts_zero_and_monotone Nat).1 InstrumentedBase.CMP⟩

/-- No caller-operation step is possible when no wrapper instance is alive:
with an empty batch the operation cannot touch the counter at all. -/
theorem opStep_empty_absurd {T : Type} {s' : SessionState T}
    (h : OpStep (initState T) s') : False := by
  cases h with
  | cloneStep cloneT w s hw => simp [initState] at hw
  | dropStep w pre post s hsplit => simp [initState] at hsplit
  | eqStep eqT w₁ w₂ s h₁ h₂ => simp [initState] at h₁
  | partialCmpStep pcT w₁ w₂ s h₁ h₂ => simp [initState] at h₁
  | cmpStep cT w₁ w₂ s h₁ h₂ => simp [initState] at h₁

/-- On an empty batch every slot of the returned counter is zero, whatever
the caller operation does: no counted step is even possible, and the model of
the session is a total function — it cannot fail.  (C6) -/
theorem c6_empty_batch_all_zero (T : Type) :
    (∀ s : SessionState T, Relation.ReflTransGen OpStep (initState T) s →
      ∀ i, (sessionCounter s).counts i = 0) ∧
    count_operations ([] : List T) (fun ws σ => (ws, σ)) = InstrumentedBase.default := by
  refine ⟨fun s h i => ?_, rfl⟩
  rcases h.cases_head with heq | ⟨c, hstep, -⟩
  · rw [← heq]
    rfl
  · exact absurd hstep opStep_empty_absurd

/-- Witness for C6: the empty trace on the empty batch leaves the DROP slot
at zero. -/
theorem c6_empty_batch_all_zero_witness :
    (sessionCounter (initState Nat)).counts InstrumentedBase.DROP = 0 :=
  (c6_empty_batch_all_zero Nat).1 (initState Nat) Relation.ReflTransGen.refl
    InstrumentedBase.DROP

/-- Tearing down a surviving vector whose wrappers all hold the session cell
adds exactly its length to the DROP slot and nothing to any other slot. -/
theorem dropBatch_counts {T : Type} (ws : List (Instrumented T)) (b : InstrumentedBase)
    (hw : ∀ w ∈ ws, w.base = 0) (i : Fin InstrumentedBase.COLUMNS) :
    ((dropBatch ws [b]).getD 0 InstrumentedBase.default).counts i =
      b.counts i + (if i = InstrumentedBase.DROP then ws.length else 0) := by
  induction ws generalizing b with
  | nil => simp [dropBatch]
  | cons w ws ih =>
      have hw0 : w.base = 0 := hw w (by simp)
      have hstep : dropBatch (w :: ws) [b] =
          dropBatch ws [b.incr InstrumentedBase.DROP] := by
        simp [dropBatch, Instrumented.drop, Store.upd, hw0]
      rw [hstep, ih _ (fun u hu => hw u (by simp [hu]))]
      by_cases hi : i = InstrumentedBase.DROP
      · subst hi
        rw [InstrumentedBase.counts_incr_self]
        simp
        omega
      · rw [InstrumentedBase.counts_incr_of_ne _ hi]
        simp [hi]

/-- `count_operations` snapshots the counter after the caller operation
returns and before the surviving wrapped vector is dropped: the returned
value is exactly the cell state at that moment, while the teardown state
differs from it by the number of surviving wrappers in the DROP slot only —
so teardown destroys are excluded from the report.  (C10) -/
theorem c10_snapshot_excludes_teardown {T : Type} (vec : List T)
    (f : List (Instrumented T) → Store → List (Instrumented T) × Store)
    (b : InstrumentedBase)
    (h1 : (f (wrapBatch vec 0 [InstrumentedBase.default]).1
      (wrapBatch vec 0 [InstrumentedBase.default]).2).2 = [b])
    (h2 : ∀ w ∈ (f (wrapBatch vec 0 [InstrumentedBase.default]).1
      (wrapBatch vec 0 [InstrumentedBase.default]).2).1, w.base = 0) :
    count_operations vec f = b ∧
    (count_operations_after_teardown vec f).counts InstrumentedBase.DROP =
      b.counts InstrumentedBase.DROP +
        (f (wrapBatch vec 0 [InstrumentedBase.default]).1
          (wrapBatch vec 0 [InstrumentedBase.default]).2).1.length ∧
    ∀ i, i ≠ InstrumentedBase.DROP →
      (count_operations_after_teardown vec f).counts i = b.counts i := by
  refine ⟨?_, ?_, fun i hi => ?_⟩
  · show (f (wrapBatch vec 0 [InstrumentedBase.default]).1
        (wrapBatch vec 0 [InstrumentedBase.default]).2).2.getD 0
        InstrumentedBase.default = b
    rw [h1]
    rfl
  · show ((dropBatch (f (wrapBatch vec 0 [InstrumentedBase.default]).1
        (wrapBatch vec 0 [InstrumentedBase.default]).2).1
        (f (wrapBatch vec 0 [InstrumentedBase.default]).1
          (wrapBatch vec 0 [InstrumentedBase.default]).2).2).getD 0
        InstrumentedBase.default).counts InstrumentedBase.DROP = _
    rw [h1, dropBatch_counts _ _ h2]
    simp
  · show ((dropBatch (f (wrapBatch vec 0 [InstrumentedBase.default]).1
        (wrapBatch vec 0 [InstrumentedBase.default]).2).1
        (f (wrapBatch vec 0 [InstrumentedBase.default]).1
          (wrapBatch vec 0 [InstrumentedBase.default]).2).2).getD 0
        InstrumentedBase.default).counts i = b.counts i
    rw [h1, dropBatch_counts _ _ h2]
    simp [hi]

/-- Witness for C10: the one-element batch `[5]` with the identity operation;
the returned DROP slot is zero while the teardown state has DROP = 1. -/
theorem c10_snapshot_excludes_teardown_witness :
    count_operations [5] (fun (ws : List (Instrumented Nat)) (σ : Store) => (ws, σ)) =
      InstrumentedBase.default.incr InstrumentedBase.NEW ∧
    (count_operations_after_teardown [5]
        (fun (ws : List (Instrumented Nat)) (σ : Store) => (ws, σ))).counts
      InstrumentedBase.DROP =
      (InstrumentedBase.default.incr InstrumentedBase.NEW).counts
        InstrumentedBase.DROP + 1 ∧
    (count_operations_after_teardown [5]
        (fun (ws : List (Instrumented Nat)) (σ : Store) => (ws, σ))).counts
      InstrumentedBase.NEW =
      (InstrumentedBase.default.incr InstrumentedBase.NEW).counts
        InstrumentedBase.NEW :=
  ⟨(c10_snapshot_excludes_teardown [5] (fun ws σ => (ws, σ))
      (InstrumentedBase.default.incr InstrumentedBase.NEW) rfl (by decide)).1,
    (c10_snapshot_excludes_teardown [5] (fun ws σ => (ws, σ))
      (InstrumentedBase.default.incr InstrumentedBase.NEW) rfl (by decide)).2.1,
    (c10_snapshot_excludes_teardown [5] (fun ws σ => (ws, σ))
      (InstrumentedBase.default.incr InstrumentedBase.NEW) rfl (by decide)).2.2
      InstrumentedBase.NEW (by decide)⟩
